import Mathlib

/-!
Verification of the analytical core of the hercules `labours` chart modules:
the Lorenz-curve Gini computation (`knowledge_diffusion._plot_lorenz`), the
composite hotspot risk score (`hotspot_risk._plot_bubble_chart`), the temporal
resampler (`languages._resample_language_data`), the tick-to-calendar mapper
(`bus_factor.show_bus_factor` / `ownership_concentration.show_ownership_concentration`)
and the refactoring-phase summary (`refactoring_proxy.print_refactoring_summary`).

Numeric values are modelled over `ℚ`; dates are modelled as whole days since
the Unix epoch (1970-01-01, a Thursday).
-/

namespace Hercules

/-! ### Lorenz-curve Gini (`knowledge_diffusion._plot_lorenz`) -/

/-- `numpy.cumsum`: partial sums `[S₁, …, Sₙ]` of a weight list. -/
def cumsum : List ℚ → List ℚ
  | [] => []
  | a :: t => a :: (cumsum t).map (a + ·)

/-- `numpy.trapz y x`: trapezoidal integration over the points `zip x y`,
`Σ (x_{k+1} - x_k) * (y_{k+1} + y_k) / 2`. -/
def trapz (y x : List ℚ) : ℚ :=
  let pts := List.zip x y
  (List.zipWith (fun p q => (q.1 - p.1) * (q.2 + p.2) / 2) pts pts.tail).sum

/-- The Lorenz-curve Gini computed from an ascending-sorted weight list `l`,
exactly as `_plot_lorenz` builds it: `cum_files = arange(1, n+1) / n` and
`cum_editors = cumsum(l) / total`, origin `(0,0)` prepended, then
`1 - 2 * trapz(cum_editors, cum_files)`. -/
def giniFromSorted (l : List ℚ) : ℚ :=
  let n : ℚ := l.length
  let cumFiles : List ℚ := 0 :: (List.range l.length).map (fun k : ℕ => ((k : ℚ) + 1) / n)
  let cumEditors : List ℚ := 0 :: (cumsum l).map (· / l.sum)
  1 - 2 * trapz cumEditors cumFiles

/-- Gini of a weight list as `_plot_lorenz` computes it: sort ascending, then
apply the Lorenz-curve formula. -/
def giniLorenz (ws : List ℚ) : ℚ :=
  giniFromSorted (ws.mergeSort (fun a b => decide (a ≤ b)))

/-- The numeric outcome of `_plot_lorenz`: when the guard
`total_editors == 0 or n == 0` fires the function returns early and no Gini
value is produced (`none`); otherwise the Lorenz-curve Gini is computed. -/
def plotLorenzGini (ws : List ℚ) : Option ℚ :=
  let l := ws.mergeSort (fun a b => decide (a ≤ b))
  if l.sum = 0 ∨ l.length = 0 then none else some (giniFromSorted l)

/-- Index-weighted sum `Σ_{i=1}^n i * wᵢ` (1-based), recursively. -/
def iws : List ℚ → ℚ
  | [] => 0
  | a :: t => a + t.sum + iws t

/-- Closed-form Gini of an ascending-sorted sequence:
`2 * Σ i*wᵢ / (n * Σ wᵢ) - (n+1)/n`. -/
def giniClosed (l : List ℚ) : ℚ :=
  2 * (List.zipWith (fun (i : ℕ) w => ((i : ℚ) + 1) * w) (List.range l.length) l).sum
      / (l.length * l.sum) - ((l.length : ℚ) + 1) / l.length

/-- Arithmetic progression `[c, c+d, …, c+(m-1)d]`. -/
def arith (c d : ℚ) : ℕ → List ℚ
  | 0 => []
  | m + 1 => c :: arith (c + d) d m

theorem zipWith_range_shift_sum (t : List ℚ) :
    ∀ c : ℚ, (List.zipWith (fun (i : ℕ) w => ((i : ℚ) + c) * w)
      (List.range t.length) t).sum = (c - 1) * t.sum + iws t := by
  induction t with
  | nil => intro c; simp [iws]
  | cons a t ih =>
    intro c
    rw [List.length_cons, List.range_succ_eq_map]
    simp only [List.zipWith_cons_cons, List.zipWith_map_left, List.sum_cons]
    have hfg : (fun (i : ℕ) (w : ℚ) => ((Nat.succ i : ℚ) + c) * w)
        = fun (i : ℕ) (w : ℚ) => ((i : ℚ) + (c + 1)) * w := by
      funext i w
      push_cast
      ring
    rw [hfg, ih (c + 1), iws]
    push_cast
    ring

theorem iws_eq_zipWith (l : List ℚ) :
    iws l = (List.zipWith (fun (i : ℕ) w => ((i : ℚ) + 1) * w) (List.range l.length) l).sum := by
  rw [zipWith_range_shift_sum l 1]; ring

theorem cumsum_length (l : List ℚ) : (cumsum l).length = l.length := by
  induction l with
  | nil => rfl
  | cons a t ih => simp [cumsum, ih]

theorem sum_map_add_const (l : List ℚ) (c : ℚ) :
    (l.map (c + ·)).sum = l.sum + l.length * c := by
  induction l with
  | nil => simp
  | cons a t ih => simp [ih]; ring

theorem cumsum_sum (l : List ℚ) :
    (cumsum l).sum = ((l.length : ℚ) + 1) * l.sum - iws l := by
  induction l with
  | nil => simp [cumsum, iws]
  | cons a t ih =>
    rw [cumsum, List.sum_cons, sum_map_add_const, cumsum_length, ih, iws]
    simp only [List.length_cons, List.sum_cons]
    push_cast
    ring

theorem getLast?_cons_ne_nil {α : Type} (a : α) {l : List α} (h : l ≠ []) :
    (a :: l).getLast? = l.getLast? := by
  cases l with
  | nil => exact absurd rfl h
  | cons b t => exact List.getLast?_cons_cons

theorem cumsum_getLast? (l : List ℚ) (h : l ≠ []) :
    (cumsum l).getLast? = some l.sum := by
  induction l with
  | nil => exact absurd rfl h
  | cons a t ih =>
    cases t with
    | nil => simp [cumsum]
    | cons b t' =>
      rw [cumsum, getLast?_cons_ne_nil _ (by simp [cumsum]), List.getLast?_map,
        ih (by simp)]
      simp [cumsum]

theorem sum_map_div (l : List ℚ) (c : ℚ) : (l.map (· / c)).sum = l.sum / c := by
  induction l with
  | nil => simp
  | cons a t ih => simp [ih]; ring

theorem trapz_singleton (a x : ℚ) : trapz [a] [x] = 0 := by
  simp [trapz]

theorem trapz_cons_cons (a b x x' : ℚ) (t xs : List ℚ) :
    trapz (a :: b :: t) (x :: x' :: xs)
      = (x' - x) * (b + a) / 2 + trapz (b :: t) (x' :: xs) := by
  simp [trapz]

theorem getLastD_eq_getD_getLast? {α : Type} (l : List α) (d : α) :
    l.getLastD d = (l.getLast?).getD d := by
  cases l with
  | nil => rfl
  | cons a t => rw [List.getLastD_eq_getLast?]

theorem trapz_arith (y : List ℚ) :
    ∀ c d : ℚ, y ≠ [] →
      trapz y (arith c d y.length) = d * (2 * y.sum - y.headD 0 - y.getLastD 0) / 2 := by
  induction y with
  | nil => intro c d h; exact absurd rfl h
  | cons a t ih =>
    intro c d _
    cases t with
    | nil =>
      have h1 : ([a] : List ℚ).getLastD 0 = a := rfl
      simp only [List.length_singleton, arith, trapz_singleton, List.sum_cons,
        List.sum_nil, List.headD_cons, h1]
      ring
    | cons b t' =>
      have hiht := ih (c + d) d (by simp)
      rw [show (b :: t').length = t'.length + 1 from rfl, arith] at hiht
      rw [show (a :: b :: t').length = t'.length + 1 + 1 from rfl, arith, arith,
        trapz_cons_cons, hiht]
      have hlast : (a :: b :: t').getLastD 0 = (b :: t').getLastD 0 := by
        rw [getLastD_eq_getD_getLast?, getLastD_eq_getD_getLast?,
          List.getLast?_cons_cons]
      rw [hlast]
      simp only [List.sum_cons, List.headD_cons]
      ring

theorem arith_eq_map_range (m : ℕ) :
    ∀ c d : ℚ, arith c d m = (List.range m).map (fun k : ℕ => c + (k : ℚ) * d) := by
  induction m with
  | zero => intro c d; rfl
  | succ m ih =>
    intro c d
    rw [arith, List.range_succ_eq_map, List.map_cons, ih (c + d) d, List.map_map]
    refine congrArg₂ _ (by push_cast; ring) (List.map_congr_left fun k _ => ?_)
    simp only [Function.comp_apply]
    push_cast
    ring

/-- The `cum_files` axis of `_plot_lorenz` is the arithmetic progression
`0, 1/n, 2/n, …, 1`. -/
theorem cumFiles_eq_arith (n : ℕ) :
    (0 : ℚ) :: (List.range n).map (fun k : ℕ => ((k : ℚ) + 1) / (n : ℚ))
      = arith 0 (1 / n) (n + 1) := by
  rw [arith_eq_map_range, List.range_succ_eq_map, List.map_cons, List.map_map]
  refine congrArg₂ _ (by push_cast; ring) (List.map_congr_left fun k _ => ?_)
  simp only [Function.comp_apply]
  push_cast
  ring

/-- Key identity: on any nonempty list with nonzero total, the trapezoidal
Lorenz-curve Gini of `_plot_lorenz` equals the closed-form Gini. -/
theorem cumsum_ne_nil (l : List ℚ) (h : l ≠ []) : cumsum l ≠ [] := by
  cases l with
  | nil => exact absurd rfl h
  | cons a t => simp [cumsum]

theorem cumsum_map_ne_nil (l : List ℚ) (f : ℚ → ℚ) (h : l ≠ []) :
    (cumsum l).map f ≠ [] := by
  simpa using cumsum_ne_nil l h

theorem giniFromSorted_eq_closed (l : List ℚ) (hne : l ≠ []) (hT : l.sum ≠ 0) :
    giniFromSorted l = giniClosed l := by
  have hn0 : l.length ≠ 0 := fun h => hne (List.length_eq_zero.1 h)
  have hn : (l.length : ℚ) ≠ 0 := Nat.cast_ne_zero.2 hn0
  have hy : ((0 : ℚ) :: (cumsum l).map (· / l.sum)) ≠ [] := by simp
  have hylen : ((0 : ℚ) :: (cumsum l).map (· / l.sum)).length = l.length + 1 := by
    simp [cumsum_length]
  have hsum : ((0 : ℚ) :: (cumsum l).map (· / l.sum)).sum
      = (((l.length : ℚ) + 1) * l.sum - iws l) / l.sum := by
    rw [List.sum_cons, sum_map_div, cumsum_sum]; ring
  have hlast : ((0 : ℚ) :: (cumsum l).map (· / l.sum)).getLastD 0 = 1 := by
    rw [getLastD_eq_getD_getLast?, getLast?_cons_ne_nil _ (cumsum_map_ne_nil l _ hne),
      List.getLast?_map, cumsum_getLast? l hne]
    simp [div_self hT]
  simp only [giniFromSorted, giniClosed]
  rw [cumFiles_eq_arith, ← hylen, trapz_arith _ 0 (1 / (l.length : ℚ)) hy,
    hsum, hlast, ← iws_eq_zipWith]
  simp only [List.headD_cons]
  field_simp
  ring

/-- C1: the Gini coefficient computed from the discrete Lorenz curve (sort
ascending, cumulative-fraction points with the origin prepended, `1 − 2·trapz`)
equals the closed-form Gini of the same sorted sequence exactly, hence in
particular to within `1e-9`. -/
theorem gini_lorenz_eq_closed_form (ws : List ℚ) (hnn : ∀ w ∈ ws, 0 ≤ w)
    (hT : 0 < ws.sum) :
    giniLorenz ws = giniClosed (ws.mergeSort (fun a b => decide (a ≤ b))) ∧
    |giniLorenz ws - giniClosed (ws.mergeSort (fun a b => decide (a ≤ b)))|
      ≤ 1 / 1000000000 := by
  have hperm := List.mergeSort_perm ws (fun a b => decide (a ≤ b))
  have hsum : (ws.mergeSort (fun a b => decide (a ≤ b))).sum = ws.sum := hperm.sum_eq
  have hne : ws.mergeSort (fun a b => decide (a ≤ b)) ≠ [] := by
    intro h
    rw [h, List.sum_nil] at hsum
    exact absurd (hsum ▸ hT) (lt_irrefl _)
  have heq := giniFromSorted_eq_closed _ hne (by rw [hsum]; exact ne_of_gt hT)
  refine ⟨heq, ?_⟩
  rw [giniLorenz, heq, sub_self, abs_zero]
  norm_num

/-- Witness for C1 at the concrete weights `[1, 2, 3]`. -/
theorem gini_lorenz_eq_closed_form_witness :
    (∀ w ∈ [(1 : ℚ), 2, 3], 0 ≤ w) ∧ 0 < ([(1 : ℚ), 2, 3]).sum ∧
    giniLorenz [(1 : ℚ), 2, 3]
      = giniClosed (([(1 : ℚ), 2, 3]).mergeSort (fun a b => decide (a ≤ b))) :=
  ⟨by norm_num, by norm_num,
    (gini_lorenz_eq_closed_form [(1 : ℚ), 2, 3] (by norm_num) (by norm_num)).1⟩

theorem plotLorenzGini_none_of_degenerate (ws : List ℚ) (h : ws = [] ∨ ws.sum = 0) :
    plotLorenzGini ws = none := by
  have hs : (ws.mergeSort (fun a b => decide (a ≤ b))).sum = ws.sum :=
    (List.mergeSort_perm ws _).sum_eq
  have h0 : (ws.mergeSort (fun a b => decide (a ≤ b))).sum = 0 := by
    rcases h with h | h
    · rw [hs, h]; rfl
    · rw [hs, h]
  simp [plotLorenzGini, h0]

/-- C5 counterexample: on the degenerate inputs (empty weight list, or weights
summing to 0) `_plot_lorenz` returns early and produces no Gini value at all —
in particular the result is not `0.0`. -/
theorem plotLorenzGini_zero_counterexample :
    plotLorenzGini ([] : List ℚ) ≠ some 0 ∧ plotLorenzGini ([] : List ℚ) = none := by
  have h := plotLorenzGini_none_of_degenerate [] (Or.inl rfl)
  exact ⟨by rw [h]; simp, h⟩

/-- C5 (amended): for degenerate inputs (empty sequence, or total weight 0)
the Gini computation is skipped entirely — `_plot_lorenz` returns early, never
failing and never dividing by zero, but it does not return `0.0`. -/
theorem plotLorenzGini_degenerate_skips (ws : List ℚ) (h : ws = [] ∨ ws.sum = 0) :
    plotLorenzGini ws = none :=
  plotLorenzGini_none_of_degenerate ws h

/-- Witness for C5 at the concrete degenerate input `[0, 0]`. -/
theorem plotLorenzGini_degenerate_skips_witness :
    ([(0 : ℚ), 0] = [] ∨ [(0 : ℚ), 0].sum = 0) ∧ plotLorenzGini [(0 : ℚ), 0] = none :=
  ⟨Or.inr (by norm_num), plotLorenzGini_degenerate_skips [0, 0] (Or.inr (by norm_num))⟩

/-! ### Refactoring-phase summary (`refactoring_proxy.print_refactoring_summary`) -/

/-- The phase counts of `print_refactoring_summary`: with no ticks nothing is
computed; otherwise a tick counts as a refactoring phase exactly when its
`refactoring_rate` is `≥ threshold`, and `feature_ticks = len(ticks) -
refactoring_ticks`. -/
def refactoringSummary (rates : List ℚ) (threshold : ℚ) : Option (ℕ × ℕ) :=
  if rates = [] then none
  else
    let refactoringTicks := rates.countP (fun r => decide (threshold ≤ r))
    some (refactoringTicks, rates.length - refactoringTicks)

/-- C10: for every non-empty list of ticks, a tick is a refactoring phase iff
its rate is `≥ threshold` and a feature phase otherwise, and the two phase
counts always add up to the total number of ticks. -/
theorem refactoring_summary_partition (rates : List ℚ) (threshold : ℚ)
    (h : rates ≠ []) :
    refactoringSummary rates threshold
      = some (rates.countP (fun r => decide (threshold ≤ r)),
              rates.countP (fun r => decide (r < threshold))) ∧
    rates.countP (fun r => decide (threshold ≤ r))
      + rates.countP (fun r => decide (r < threshold)) = rates.length := by
  have hsplit := List.length_eq_countP_add_countP (fun r => decide (threshold ≤ r)) rates
  have hcongr : rates.countP (fun r => decide ¬(decide (threshold ≤ r) = true))
      = rates.countP (fun r => decide (r < threshold)) := by
    apply List.countP_congr
    intro r _
    simp [not_le]
  rw [hcongr] at hsplit
  refine ⟨?_, hsplit.symm⟩
  rw [refactoringSummary, if_neg h]
  have heq : rates.length - rates.countP (fun r => decide (threshold ≤ r))
      = rates.countP (fun r => decide (r < threshold)) := by omega
  simp only []
  rw [heq]

/-- Witness for C10 at rates `[1/2, 1/4]` with threshold `1/3`. -/
theorem refactoring_summary_partition_witness :
    refactoringSummary [(1 : ℚ)/2, 1/4] (1/3) = some (1, 1) := by
  have h := (refactoring_summary_partition [(1 : ℚ)/2, 1/4] (1/3) (by simp)).1
  rw [h]
  norm_num [List.countP_cons, List.countP_nil]

/-! ### Tick-to-calendar mapper (`show_bus_factor`, `show_ownership_concentration`) -/

/-- `nanoseconds_per_day = 24 * 60 * 60 * 1_000_000_000`. -/
def nanosecondsPerDay : ℚ := 24 * 60 * 60 * 1000000000

/-- The tick-to-date conversion shared by `show_bus_factor` and
`show_ownership_concentration`, with dates as rational days since the epoch
(`datetime.fromtimestamp(s)` is day `s / 86400`): when `tick_size > 0` and
`header_start_date > 0` each tick `t` maps to
`start + t * (tick_size / nanoseconds_per_day)` days; otherwise the raw tick
indices are used (`use_dates = False`). -/
def tickToDates (tickSize headerStartDate : ℤ) (ticks : List ℤ) :
    List ℚ ⊕ List ℤ :=
  if 0 < tickSize ∧ 0 < headerStartDate then
    let tickDays : ℚ := (tickSize : ℚ) / nanosecondsPerDay
    Sum.inl (ticks.map fun t => (headerStartDate : ℚ) / 86400 + (t : ℚ) * tickDays)
  else Sum.inr ticks

/-- C9: the tick-to-calendar mapper is a pure function sending tick `t` to
`repo_start + t * (tick_duration_ns / nanoseconds_per_day)` days whenever
`tick_duration_ns > 0` and `repo_start_epoch_s > 0`, and otherwise signals
"no calendar mapping" by returning the raw tick indices, without error. -/
theorem tick_to_calendar_mapper (tickSize headerStartDate : ℤ) (ticks : List ℤ) :
    (0 < tickSize ∧ 0 < headerStartDate →
      tickToDates tickSize headerStartDate ticks
        = Sum.inl (ticks.map fun t =>
            (headerStartDate : ℚ) / 86400
              + (t : ℚ) * ((tickSize : ℚ) / nanosecondsPerDay)))
    ∧ (tickSize ≤ 0 ∨ headerStartDate ≤ 0 →
      tickToDates tickSize headerStartDate ticks = Sum.inr ticks) := by
  constructor
  · intro h
    simp [tickToDates, h]
  · intro h
    have hno : ¬(0 < tickSize ∧ 0 < headerStartDate) := by
      rcases h with h | h
      · exact fun hc => absurd hc.1 (not_lt.2 h)
      · exact fun hc => absurd hc.2 (not_lt.2 h)
    simp [tickToDates, hno]

/-- Witness for C9: one day per tick starting one day into the epoch, and the
degraded mode for `tick_size = 0`. -/
theorem tick_to_calendar_mapper_witness :
    tickToDates 86400000000000 86400 [0, 1, 2] = Sum.inl [1, 2, 3] ∧
    tickToDates 0 86400 [0, 1] = Sum.inr [0, 1] := by
  constructor
  · have h := (tick_to_calendar_mapper 86400000000000 86400 [0, 1, 2]).1 (by norm_num)
    rw [h]
    norm_num [nanosecondsPerDay]
  · exact (tick_to_calendar_mapper 0 86400 [0, 1]).2 (by norm_num)

/-! ### Composite hotspot risk score (`hotspot_risk._plot_bubble_chart`) -/

/-- `numpy.max` of an array (the arrays in `show_hotspot_risk` are nonempty;
on `[]` we return 0). -/
def npMax : List ℚ → ℚ
  | [] => 0
  | a :: t => t.foldl max a

/-- The inline risk-score computation of `_plot_bubble_chart` (lines 116-124):
each normalisation maximum is replaced by 1 when the array maximum is not
positive, and the score of file `i` is
`size_norm[i] * churn_norm[i] * coupling_norm[i] * ginis[i]` with
`size_norm = Lg(sizes + 1) / Lg(max_size + 1)`, `churn_norm = churns /
max_churn`, `coupling_norm = couplings / max_coupling`. `Lg` stands for the
elementwise `numpy.log`. -/
def riskScores (Lg : ℚ → ℚ) (sizes churns couplings ginis : List ℚ) : List ℚ :=
  let maxChurn := if 0 < npMax churns then npMax churns else 1
  let maxCoupling := if 0 < npMax couplings then npMax couplings else 1
  let maxSize := if 0 < npMax sizes then npMax sizes else 1
  List.zipWith (fun p q =>
      (Lg (p.1 + 1) / Lg (maxSize + 1)) * (p.2 / maxChurn)
        * (q.1 / maxCoupling) * q.2)
    (sizes.zip churns) (couplings.zip ginis)

theorem le_foldl_max (t : List ℚ) : ∀ b x : ℚ, (x = b ∨ x ∈ t) → x ≤ t.foldl max b := by
  induction t with
  | nil =>
    intro b x h
    rcases h with h | h
    · exact le_of_eq h
    · simp at h
  | cons a t ih =>
    intro b x h
    rcases h with h | h
    · exact le_trans (le_of_eq h) (le_trans (le_max_left b a) (ih (max b a) _ (Or.inl rfl)))
    · rcases List.mem_cons.1 h with h | h
      · exact le_trans (le_of_eq h)
          (le_trans (le_max_right b a) (ih (max b a) _ (Or.inl rfl)))
      · exact ih (max b a) x (Or.inr h)

theorem getElem_le_npMax (l : List ℚ) (i : ℕ) (h : i < l.length) : l[i] ≤ npMax l := by
  cases l with
  | nil => simp at h
  | cons a t =>
    have hm : (a :: t)[i] ∈ a :: t := List.getElem_mem h
    exact le_foldl_max t a _ (List.mem_cons.1 hm)

/-- C4: for all non-negative inputs the composite risk score equals the
product `size_norm * churn_norm * coupling_norm * ownership_gini` where
`size_norm = log(size+1)/log(max_size+1)`, `churn_norm = churn/max_churn`
(0 when `max_churn = 0`), `coupling_norm = coupling/max_coupling` (0 when
`max_coupling = 0`) and the Gini is used directly; the zero-denominator cases
never fail (`Lg` is any logarithm with `Lg 1 = 0`). -/
theorem risk_score_product_formula (Lg : ℚ → ℚ)
    (sizes churns couplings ginis : List ℚ) (i : ℕ)
    (hLg : Lg 1 = 0)
    (hlen1 : churns.length = sizes.length) (hlen2 : couplings.length = sizes.length)
    (hlen3 : ginis.length = sizes.length)
    (hs : ∀ x ∈ sizes, 0 ≤ x) (hc : ∀ x ∈ churns, 0 ≤ x)
    (hcp : ∀ x ∈ couplings, 0 ≤ x)
    (hi : i < sizes.length) :
    (riskScores Lg sizes churns couplings ginis).getD i 0
      = (Lg (sizes.getD i 0 + 1) / Lg (npMax sizes + 1))
        * (if npMax churns = 0 then 0 else churns.getD i 0 / npMax churns)
        * (if npMax couplings = 0 then 0 else couplings.getD i 0 / npMax couplings)
        * ginis.getD i 0 := by
  have hic : i < churns.length := by omega
  have hicp : i < couplings.length := by omega
  have hig : i < ginis.length := by omega
  have hlz : i < (riskScores Lg sizes churns couplings ginis).length := by
    simp only [riskScores, List.length_zipWith, List.length_zip]
    omega
  rw [List.getD_eq_getElem _ _ hlz, List.getD_eq_getElem _ _ hi,
    List.getD_eq_getElem _ _ hic, List.getD_eq_getElem _ _ hicp,
    List.getD_eq_getElem _ _ hig]
  simp only [riskScores, List.getElem_zipWith, List.getElem_zip]
  have hsi : (0 : ℚ) ≤ sizes[i] := hs _ (List.getElem_mem hi)
  have hci : (0 : ℚ) ≤ churns[i] := hc _ (List.getElem_mem hic)
  have hcpi : (0 : ℚ) ≤ couplings[i] := hcp _ (List.getElem_mem hicp)
  have hA : Lg (sizes[i] + 1) / Lg ((if 0 < npMax sizes then npMax sizes else 1) + 1)
      = Lg (sizes[i] + 1) / Lg (npMax sizes + 1) := by
    by_cases hms : 0 < npMax sizes
    · rw [if_pos hms]
    · have h0 : npMax sizes = 0 :=
        le_antisymm (not_lt.1 hms) (le_trans hsi (getElem_le_npMax sizes i hi))
      have hz : sizes[i] = 0 :=
        le_antisymm (h0 ▸ getElem_le_npMax sizes i hi) hsi
      rw [if_neg hms, h0, hz]
      norm_num [hLg]
  have hB : churns[i] / (if 0 < npMax churns then npMax churns else 1)
      = (if npMax churns = 0 then 0 else churns[i] / npMax churns) := by
    by_cases hmc : 0 < npMax churns
    · rw [if_pos hmc, if_neg (ne_of_gt hmc)]
    · have h0 : npMax churns = 0 :=
        le_antisymm (not_lt.1 hmc) (le_trans hci (getElem_le_npMax churns i hic))
      have hz : churns[i] = 0 :=
        le_antisymm (h0 ▸ getElem_le_npMax churns i hic) hci
      rw [if_neg hmc, if_pos h0, hz]
      norm_num
  have hC : couplings[i] / (if 0 < npMax couplings then npMax couplings else 1)
      = (if npMax couplings = 0 then 0 else couplings[i] / npMax couplings) := by
    by_cases hmc : 0 < npMax couplings
    · rw [if_pos hmc, if_neg (ne_of_gt hmc)]
    · have h0 : npMax couplings = 0 :=
        le_antisymm (not_lt.1 hmc) (le_trans hcpi (getElem_le_npMax couplings i hicp))
      have hz : couplings[i] = 0 :=
        le_antisymm (h0 ▸ getElem_le_npMax couplings i hicp) hcpi
      rw [if_neg hmc, if_pos h0, hz]
      norm_num
  rw [hA, hB, hC]

/-- Witness for C4 at a file with positive size/churn, zero coupling. -/
theorem risk_score_product_formula_witness :
    (riskScores (fun q => q - 1) [2] [3] [0] [(1 : ℚ)/2]).getD 0 0
      = ((fun q : ℚ => q - 1) ((2 : ℚ) + 1) / (fun q : ℚ => q - 1) (npMax [2] + 1))
        * (if npMax [3] = 0 then 0 else (3 : ℚ) / npMax [3])
        * (if npMax [(0 : ℚ)] = 0 then 0 else (0 : ℚ) / npMax [(0 : ℚ)])
        * (1 : ℚ)/2 := by
  have h := risk_score_product_formula (fun q => q - 1) [2] [3] [0] [(1 : ℚ)/2] 0
    (by norm_num) rfl rfl rfl
    (by intro x hx; simp at hx; simp [hx])
    (by intro x hx; simp at hx; simp [hx])
    (by intro x hx; simp at hx; simp [hx])
    (by norm_num)
  simpa using h

/-- Modelled from the spec: the batch risk ranking — files sorted descending
by composite score with ties broken by file path — which the `labours` source
receives pre-computed from upstream (`files` arrive carrying `risk_score`);
only the score formula itself lives in `_plot_bubble_chart`. -/
def rankRisk (files : List (String × ℚ)) : List (String × ℚ) :=
  files.mergeSort (fun a b => decide (b.2 < a.2 ∨ (a.2 = b.2 ∧ a.1 ≤ b.1)))

theorem rankRisk_rel_trans (a b c : String × ℚ)
    (hab : b.2 < a.2 ∨ (a.2 = b.2 ∧ a.1 ≤ b.1))
    (hbc : c.2 < b.2 ∨ (b.2 = c.2 ∧ b.1 ≤ c.1)) :
    c.2 < a.2 ∨ (a.2 = c.2 ∧ a.1 ≤ c.1) := by
  rcases hab with hab | ⟨hab1, hab2⟩
  · rcases hbc with hbc | ⟨hbc1, hbc2⟩
    · exact Or.inl (lt_trans hbc hab)
    · exact Or.inl (hbc1 ▸ hab)
  · rcases hbc with hbc | ⟨hbc1, hbc2⟩
    · exact Or.inl (hab1 ▸ hbc)
    · exact Or.inr ⟨hab1.trans hbc1, le_trans hab2 hbc2⟩

theorem rankRisk_rel_total (a b : String × ℚ) :
    (b.2 < a.2 ∨ (a.2 = b.2 ∧ a.1 ≤ b.1)) ∨ (a.2 < b.2 ∨ (b.2 = a.2 ∧ b.1 ≤ a.1)) := by
  rcases lt_trichotomy a.2 b.2 with h | h | h
  · exact Or.inr (Or.inl h)
  · rcases le_total a.1 b.1 with hp | hp
    · exact Or.inl (Or.inr ⟨h, hp⟩)
    · exact Or.inr (Or.inr ⟨h.symm, hp⟩)
  · exact Or.inl (Or.inl h)

/-- C6: the file with `size = 0` has composite score 0 regardless of its other
factors, and the ranking orders files by descending score with ties broken by
path, so that file lands in the zero-score tail, path-ordered. -/
theorem zero_size_scores_zero_and_ranks_last (Lg : ℚ → ℚ) (paths : List String)
    (sizes churns couplings ginis : List ℚ) (i : ℕ)
    (hLg : Lg 1 = 0)
    (hi : i < sizes.length) (hsize : sizes.getD i 0 = 0)
    (hpos : ∃ j, j < sizes.length ∧ 0 < sizes.getD j 0)
    (hlen1 : churns.length = sizes.length) (hlen2 : couplings.length = sizes.length)
    (hlen3 : ginis.length = sizes.length) :
    (riskScores Lg sizes churns couplings ginis).getD i 0 = 0 ∧
    (rankRisk (paths.zip (riskScores Lg sizes churns couplings ginis))).Perm
        (paths.zip (riskScores Lg sizes churns couplings ginis)) ∧
    (rankRisk (paths.zip (riskScores Lg sizes churns couplings ginis))).Pairwise
        (fun a b => b.2 ≤ a.2 ∧ (a.2 = b.2 → a.1 ≤ b.1)) := by
  refine ⟨?_, List.mergeSort_perm _ _, ?_⟩
  · have hic : i < churns.length := by omega
    have hlz : i < (riskScores Lg sizes churns couplings ginis).length := by
      simp only [riskScores, List.length_zipWith, List.length_zip]
      omega
    rw [List.getD_eq_getElem _ _ hlz]
    simp only [riskScores, List.getElem_zipWith, List.getElem_zip]
    have hz : sizes[i] = 0 := by
      rw [← List.getD_eq_getElem sizes 0 hi]
      exact hsize
    rw [hz, zero_add, hLg, zero_div, zero_mul, zero_mul, zero_mul]
  · have hsorted := @List.sorted_mergeSort (String × ℚ)
      (fun a b => decide (b.2 < a.2 ∨ (a.2 = b.2 ∧ a.1 ≤ b.1)))
      (fun a b c hab hbc => by
        rw [decide_eq_true_eq] at *
        exact rankRisk_rel_trans a b c hab hbc)
      (fun a b => by
        rw [Bool.or_eq_true, decide_eq_true_eq, decide_eq_true_eq]
        exact rankRisk_rel_total a b)
      (paths.zip (riskScores Lg sizes churns couplings ginis))
    refine List.Pairwise.imp ?_ hsorted
    intro a b hab
    rw [decide_eq_true_eq] at hab
    rcases hab with hab | ⟨hab1, hab2⟩
    · exact ⟨le_of_lt hab, fun he => absurd (he ▸ hab) (lt_irrefl _)⟩
    · exact ⟨le_of_eq hab1.symm, fun _ => hab2⟩

/-- Witness for C6: two files, the first of size 0 (path "b"), the second of
positive size (path "a"). -/
theorem zero_size_scores_zero_and_ranks_last_witness :
    (riskScores (fun q => q - 1) [0, 2] [5, 5] [1, 1] [(1 : ℚ)/2, 1/2]).getD 0 0 = 0 ∧
    (rankRisk (["b", "a"].zip
        (riskScores (fun q => q - 1) [0, 2] [5, 5] [1, 1] [(1 : ℚ)/2, 1/2]))).Perm
      (["b", "a"].zip
        (riskScores (fun q => q - 1) [0, 2] [5, 5] [1, 1] [(1 : ℚ)/2, 1/2])) ∧
    (rankRisk (["b", "a"].zip
        (riskScores (fun q => q - 1) [0, 2] [5, 5] [1, 1] [(1 : ℚ)/2, 1/2]))).Pairwise
      (fun a b => b.2 ≤ a.2 ∧ (a.2 = b.2 → a.1 ≤ b.1)) :=
  zero_size_scores_zero_and_ranks_last (fun q => q - 1) ["b", "a"]
    [0, 2] [5, 5] [1, 1] [(1 : ℚ)/2, 1/2] 0
    (by norm_num) (by norm_num) (by norm_num)
    ⟨1, by norm_num⟩ rfl rfl rfl

/-! ### Calendar model: `pandas.date_range` anchors, as whole days since
1970-01-01 (a Thursday). `%` and `/` on `ℤ` are euclidean, which matches
floor division for the positive divisors used below. -/

/-- Days in a Gregorian month. -/
def daysInMonth (y m : ℤ) : ℤ :=
  if m = 2 then (if y % 4 = 0 ∧ (y % 100 ≠ 0 ∨ y % 400 = 0) then 29 else 28)
  else if m = 4 ∨ m = 6 ∨ m = 9 ∨ m = 11 then 30 else 31

/-- Day number of the civil date `(y, m, d)` (Gregorian). -/
def daysFromCivil (y m d : ℤ) : ℤ :=
  let y1 := if m ≤ 2 then y - 1 else y
  let era := y1 / 400
  let yoe := y1 - era * 400
  let mp := if 2 < m then m - 3 else m + 9
  let doy := (153 * mp + 2) / 5 + d - 1
  let doe := yoe * 365 + yoe / 4 - yoe / 100 + doy
  era * 146097 + doe - 719468

/-- Civil date `(y, m, d)` of a day number. -/
def civilFromDays (z : ℤ) : ℤ × ℤ × ℤ :=
  let z1 := z + 719468
  let era := z1 / 146097
  let doe := z1 - era * 146097
  let yoe := (doe - doe / 1460 + doe / 36524 - doe / 146096) / 365
  let y := yoe + era * 400
  let doy := doe - (365 * yoe + yoe / 4 - yoe / 100)
  let mp := (5 * doy + 2) / 153
  let d := doy - (153 * mp + 2) / 5 + 1
  let m := if mp < 10 then mp + 3 else mp - 9
  (if m ≤ 2 then y + 1 else y, m, d)

/-- `k`-th weekly anchor (`freq='W'`, Sundays; day 3 = 1970-01-04 is a
Sunday): the first Sunday on/after `start`, then every 7 days. -/
def weekAnchor (start : ℤ) (k : ℕ) : ℤ :=
  start + (3 - start) % 7 + 7 * k

/-- Day number of the last day of the month with index `t`
(months since January 1970). -/
def monthEndOfIndex (t : ℤ) : ℤ :=
  let y := 1970 + t / 12
  let m := t % 12 + 1
  daysFromCivil y m (daysInMonth y m)

/-- `k`-th month-end anchor (`freq='ME'`): the first month-end on/after
`start`, then successive month-ends. -/
def monthAnchor (start : ℤ) (k : ℕ) : ℤ :=
  let c := civilFromDays start
  let t0 := (c.1 - 1970) * 12 + (c.2.1 - 1)
  let t1 := if monthEndOfIndex t0 < start then t0 + 1 else t0
  monthEndOfIndex (t1 + k)

/-- `k`-th year-end anchor (`freq='YE'`/`'A'`): the first December 31st
on/after `start`, then successive December 31sts. -/
def yearAnchor (start : ℤ) (k : ℕ) : ℤ :=
  let c := civilFromDays start
  let y0 := if daysFromCivil c.1 12 31 < start then c.1 + 1 else c.1
  daysFromCivil (y0 + k) 12 31

/-- The `k`-th anchor of `pandas.date_range(start, …, freq)` for the
frequency strings the resampler can pass (`D`, `W`, `ME`/`M`, `YE`/`A`);
no other string reaches `date_range` in the source. -/
def anchor (start : ℤ) (freq : String) (k : ℕ) : ℤ :=
  if freq = "W" then weekAnchor start k
  else if freq = "ME" ∨ freq = "M" then monthAnchor start k
  else if freq = "YE" ∨ freq = "A" then yearAnchor start k
  else start + k

/-- `pandas.date_range(start, periods=p, freq)`: the first `p` anchors. -/
def dateRange (start : ℤ) (p : ℕ) (freq : String) : List ℤ :=
  (List.range p).map (anchor start freq)

/-- The boundary-building while-loop of `_resample_language_data`
(`periods = 0; dgs = [start]; while dgs[-1] < finish: periods += 1;
dgs = date_range(start, periods, freq)`), with fuel dominating the number of
iterations (anchors advance at least daily). -/
def buildLoop (start finish : ℤ) (freq : String) : ℕ → ℕ → List ℤ → List ℤ
  | 0, _, dgs => dgs
  | fuel + 1, p, dgs =>
    if dgs.getLastD 0 < finish then
      buildLoop start finish freq fuel (p + 1) (dateRange start (p + 1) freq)
    else dgs

def buildBoundaries (start finish : ℤ) (freq : String) : List ℤ :=
  buildLoop start finish freq ((finish - start).toNat + 2) 0 [start]

/-- Resample-frequency aliases
(`aliases = {"year": "YE", "month": "ME", "day": "D", "week": "W"}`). -/
def aliasFreq (r : String) : String :=
  if r = "year" then "YE" else if r = "month" then "ME"
  else if r = "day" then "D" else if r = "week" then "W" else r

/-- Rank of a frequency in the fallback chain, for termination. -/
def freqRank (freq : String) : ℕ :=
  if freq = "A" ∨ freq = "YE" then 2 else if freq = "M" ∨ freq = "ME" then 1 else 0

/-- The aggregation loop of `_resample_language_data` (lines 86-101): for
boundary `i`, `istart = (dgs[i-1] - start).days` (0 for `i = 0`) and
`ifinish = min((dgs[i] - start).days, R)`; take row `ifinish - 1` when the
bucket is nonempty and starts inside the data, else the final row when
`istart < R`, else a zero row. -/
def sampleRows (M : List (List ℚ)) (start : ℤ) (dgs : List ℤ) : List (List ℚ) :=
  (List.range dgs.length).map fun i =>
    let gdt := dgs.getD i 0
    let istart : ℤ := if i = 0 then 0 else dgs.getD (i - 1) 0 - start
    let ifinish : ℤ := min (gdt - start) (M.length : ℤ)
    if istart < ifinish ∧ istart < (M.length : ℤ) then M.getD (ifinish - 1).toNat []
    else if istart < (M.length : ℤ) then M.getD (M.length - 1) []
    else List.replicate (M.headD []).length 0

/-- `_resample_language_data`: builds boundaries at the requested granularity;
when the first boundary overshoots `finish` it falls back year → month → week,
printing a notice at each retry (collected in the second component), and
raises `ValueError(f"Too loose resampling: {resample}. Try finer.")` when the
week level fails too. On success, returns the sampled matrix and the
boundaries. -/
def resampleLanguageData (M : List (List ℚ)) (start finish : ℤ) (r : String) :
    Except String (List (List ℚ) × List ℤ) × List String :=
  if buildBoundaries start finish (aliasFreq r) ≠ [] ∧
      finish < (buildBoundaries start finish (aliasFreq r)).headD 0 then
    if hA : aliasFreq r = "A" ∨ aliasFreq r = "YE" then
      let res := resampleLanguageData M start finish "month"
      (res.1, "too loose resampling - by year, trying by month" :: res.2)
    else if hM : aliasFreq r = "M" ∨ aliasFreq r = "ME" then
      let res := resampleLanguageData M start finish "W"
      (res.1, "too loose resampling - by month, trying by week" :: res.2)
    else
      (Except.error ("Too loose resampling: " ++ r ++ ". Try finer."), [])
  else
    (Except.ok (sampleRows M start (buildBoundaries start finish (aliasFreq r)),
      buildBoundaries start finish (aliasFreq r)), [])
termination_by freqRank (aliasFreq r)
decreasing_by
  · rcases hA with h | h <;> rw [h] <;> decide
  · rcases hM with h | h <;> rw [h] <;> decide

theorem resample_week_error (M : List (List ℚ)) (start finish : ℤ)
    (hW : buildBoundaries start finish "W" ≠ [] ∧
      finish < (buildBoundaries start finish "W").headD 0) :
    resampleLanguageData M start finish "W"
      = (Except.error "Too loose resampling: W. Try finer.", []) := by
  have ha : aliasFreq "W" = "W" := rfl
  rw [resampleLanguageData, ha, if_pos hW, dif_neg (by decide), dif_neg (by decide)]
  rfl

theorem resample_month_error (M : List (List ℚ)) (start finish : ℤ)
    (hME : buildBoundaries start finish "ME" ≠ [] ∧
      finish < (buildBoundaries start finish "ME").headD 0)
    (hW : buildBoundaries start finish "W" ≠ [] ∧
      finish < (buildBoundaries start finish "W").headD 0) :
    resampleLanguageData M start finish "month"
      = (Except.error "Too loose resampling: W. Try finer.",
         ["too loose resampling - by month, trying by week"]) := by
  have ha : aliasFreq "month" = "ME" := rfl
  rw [resampleLanguageData, ha, if_pos hME, dif_neg (by decide), dif_pos (by decide)]
  rw [resample_week_error M start finish hW]

theorem resample_year_chain_error (M : List (List ℚ)) (start finish : ℤ) (r : String)
    (hr : aliasFreq r = "A" ∨ aliasFreq r = "YE")
    (hY : buildBoundaries start finish (aliasFreq r) ≠ [] ∧
      finish < (buildBoundaries start finish (aliasFreq r)).headD 0)
    (hME : buildBoundaries start finish "ME" ≠ [] ∧
      finish < (buildBoundaries start finish "ME").headD 0)
    (hW : buildBoundaries start finish "W" ≠ [] ∧
      finish < (buildBoundaries start finish "W").headD 0) :
    resampleLanguageData M start finish r
      = (Except.error "Too loose resampling: W. Try finer.",
         ["too loose resampling - by year, trying by month",
          "too loose resampling - by month, trying by week"]) := by
  rw [resampleLanguageData, if_pos hY, dif_pos hr]
  rw [resample_month_error M start finish hME hW]

/-- C2 (amended): when the requested year-level granularity and the month- and
week-level fallbacks all yield no usable boundary, the resampler retries in
the fixed order year → month → week, emitting a diagnostic notice at each
retry, and then raises — it never falls back to day; the raised error message
names only the last attempted granularity (`W`), carrying neither the
originally requested granularity nor the computed date range. -/
theorem resample_fallback_chain (M : List (List ℚ)) (start finish : ℤ) (r : String)
    (hr : aliasFreq r = "A" ∨ aliasFreq r = "YE")
    (hY : buildBoundaries start finish (aliasFreq r) ≠ [] ∧
      finish < (buildBoundaries start finish (aliasFreq r)).headD 0)
    (hME : buildBoundaries start finish "ME" ≠ [] ∧
      finish < (buildBoundaries start finish "ME").headD 0)
    (hW : buildBoundaries start finish "W" ≠ [] ∧
      finish < (buildBoundaries start finish "W").headD 0) :
    resampleLanguageData M start finish r
      = (Except.error "Too loose resampling: W. Try finer.",
         ["too loose resampling - by year, trying by month",
          "too loose resampling - by month, trying by week"]) :=
  resample_year_chain_error M start finish r hr hY hME hW

/-- Witness for C2 at the range day 5 .. day 6 (1970-01-06 .. 1970-01-07),
over which no Sunday, month-end or year-end anchor falls. -/
theorem resample_fallback_chain_witness :
    resampleLanguageData [[0]] 5 6 "year"
      = (Except.error "Too loose resampling: W. Try finer.",
         ["too loose resampling - by year, trying by month",
          "too loose resampling - by month, trying by week"]) :=
  resample_fallback_chain [[0]] 5 6 "year" (by decide) (by decide) (by decide)
    (by decide)

/-- C2 counterexample: requesting "year" over day 5..6, requesting "month"
over day 5..6, and requesting "year" over day 12..13 all raise the very same
error value, so the raised error carries neither the originally requested
granularity nor the computed date range. -/
theorem resample_error_payload_counterexample :
    (resampleLanguageData [[0]] 5 6 "year").1
      = Except.error "Too loose resampling: W. Try finer." ∧
    (resampleLanguageData [[0]] 5 6 "month").1
      = Except.error "Too loose resampling: W. Try finer." ∧
    (resampleLanguageData [[0]] 12 13 "year").1
      = Except.error "Too loose resampling: W. Try finer." := by
  refine ⟨?_, ?_, ?_⟩
  · rw [resample_year_chain_error [[0]] 5 6 "year" (by decide) (by decide)
      (by decide) (by decide)]
  · rw [resample_month_error [[0]] 5 6 (by decide) (by decide)]
  · rw [resample_year_chain_error [[0]] 12 13 "year" (by decide) (by decide)
      (by decide) (by decide)]

/-- The value the C3 claim specifies: the cumulative row at the last daily
slot on or before the boundary `b` (clamped to the available rows). -/
def lastSlotOnOrBefore (M : List (List ℚ)) (start b : ℤ) : List ℚ :=
  M.getD (min (b - start) ((M.length : ℤ) - 1)).toNat []

/-- C3 counterexample: for the cumulative matrix `[[3], [7]]` over days 0..1
at daily granularity, the first boundary (day 0) receives the value `[7]` of
the LAST daily slot, not the value `[3]` of the last slot on/before day 0. -/
theorem resample_on_or_before_counterexample :
    (resampleLanguageData [[3], [7]] 0 1 "day").1
      = Except.ok ([[7], [3]], [0, 1]) ∧
    lastSlotOnOrBefore [[3], [7]] 0 0 = [3] ∧
    ([[7], [3]] : List (List ℚ)).getD 0 [] ≠ lastSlotOnOrBefore [[3], [7]] 0 0 := by
  have hg : ¬(buildBoundaries 0 1 (aliasFreq "day") ≠ [] ∧
      (1 : ℤ) < (buildBoundaries 0 1 (aliasFreq "day")).headD 0) := by decide
  have hb : buildBoundaries 0 1 (aliasFreq "day") = [0, 1] := by decide
  refine ⟨?_, rfl, ?_⟩
  · rw [resampleLanguageData, if_neg hg, hb]
    rfl
  · have e1 : ([[7], [3]] : List (List ℚ)).getD 0 [] = [7] := rfl
    have e2 : lastSlotOnOrBefore [[3], [7]] 0 0 = [3] := rfl
    rw [e1, e2]
    intro h
    have : (7 : ℚ) = 3 := (List.cons.inj h).1
    norm_num at this

/-- C3 (amended): for a boundary whose day-bucket is nonempty and starts
inside the data, the resampled value is the cumulative row at the last daily
slot STRICTLY BEFORE the boundary, clamped to the last available row (the
half-open `ifinish - 1` convention of the source) — not the slot on the
boundary itself. -/
theorem resample_pointsample_strictly_before (M : List (List ℚ)) (start : ℤ)
    (dgs : List ℤ) (i : ℕ)
    (hi : i < dgs.length)
    (hprev : 0 ≤ (if i = 0 then 0 else dgs.getD (i - 1) 0 - start))
    (hbucket : (if i = 0 then 0 else dgs.getD (i - 1) 0 - start)
      < min (dgs.getD i 0 - start) (M.length : ℤ)) :
    (sampleRows M start dgs).getD i []
      = M.getD (min (dgs.getD i 0 - start - 1) ((M.length : ℤ) - 1)).toNat [] := by
  have hlen : i < ((List.range dgs.length).map (fun i =>
      let gdt := dgs.getD i 0
      let istart : ℤ := if i = 0 then 0 else dgs.getD (i - 1) 0 - start
      let ifinish : ℤ := min (gdt - start) (M.length : ℤ)
      if istart < ifinish ∧ istart < (M.length : ℤ) then M.getD (ifinish - 1).toNat []
      else if istart < (M.length : ℤ) then M.getD (M.length - 1) []
      else List.replicate (M.headD []).length 0)).length := by
    simpa using hi
  rw [sampleRows, List.getD_eq_getElem _ _ hlen, List.getElem_map, List.getElem_range]
  have hcond : (if i = 0 then 0 else dgs.getD (i - 1) 0 - start)
      < min (dgs.getD i 0 - start) (M.length : ℤ) ∧
      (if i = 0 then 0 else dgs.getD (i - 1) 0 - start) < (M.length : ℤ) :=
    ⟨hbucket, lt_of_lt_of_le hbucket (min_le_right _ _)⟩
  simp only [if_pos hcond]
  congr 1
  omega

/-- Witness for C3 (amended) at the second boundary of the daily resample of
`[[3], [7]]` over days 0..1. -/
theorem resample_pointsample_strictly_before_witness :
    (sampleRows [[(3 : ℚ)], [7]] 0 [0, 1]).getD 1 [] = [3] := by
  have h := resample_pointsample_strictly_before [[(3 : ℚ)], [7]] 0 [0, 1] 1
    (by decide) (by decide) (by decide)
  rw [h]
  rfl

/-- Rows compared slot-wise. -/
def rowLe (r s : List ℚ) : Prop := ∀ k, k < r.length → r.getD k 0 ≤ s.getD k 0

/-- A matrix is monotone when consecutive rows are slot-wise nondecreasing. -/
def matrixMonotone (M : List (List ℚ)) : Prop := List.Chain' rowLe M

/-- C7 (code bug): resampling does not preserve monotonicity. For the
cumulative single-category matrix `[[0], [1]]` over days 0..1 at daily
granularity, the first day-bucket is empty, so the source assigns the first
boundary the last row (`daily_matrix[-1]`), producing the decreasing output
`[[1], [0]]`. -/
theorem resample_monotonicity_bug :
    matrixMonotone [[(0 : ℚ)], [1]] ∧
    (resampleLanguageData [[(0 : ℚ)], [1]] 0 1 "day").1
      = Except.ok ([[1], [0]], [0, 1]) ∧
    ¬ matrixMonotone [[(1 : ℚ)], [0]] := by
  refine ⟨?_, ?_, ?_⟩
  · apply List.chain'_cons.2
    refine ⟨?_, List.chain'_singleton _⟩
    intro k hk
    have hk0 : k = 0 := by simpa using hk
    subst hk0
    norm_num
  · have hg : ¬(buildBoundaries 0 1 (aliasFreq "day") ≠ [] ∧
        (1 : ℤ) < (buildBoundaries 0 1 (aliasFreq "day")).headD 0) := by decide
    have hb : buildBoundaries 0 1 (aliasFreq "day") = [0, 1] := by decide
    rw [resampleLanguageData, if_neg hg, hb]
    rfl
  · intro h
    have h2 := (List.chain'_cons.1 h).1
    have h3 := h2 0 (by norm_num)
    norm_num at h3

end Hercules
